import Mathlib

/-!
Verification development for the ImpossibleDB sharded document store.

The definitions below are shallow embeddings of the TypeScript source:
JavaScript objects become Lean structures, JS `Map`/`Set` state becomes
association lists (preserving insertion order), JS numbers become `ℚ`
(exact for the constants involved) or `ℕ` for counters and timestamps,
and fallible operations return `Option`.  Sources embedded here:
`src/objects/StorageObject.ts`, `src/objects/TransactionCoordinator.ts`,
`src/routing/router.ts` (and the second router revision), `src/routing/
consistentHash.ts`, `src/routing/localityManager.ts` (both manager
variants), `src/query/planner.ts` and the query executor module.

Abstraction notes, recorded once:
* JS strict equality on two distinct objects is reference equality and
  is `false` for the data flowing through these functions, so `jsEqStrict`
  returns `false` whenever an object value is involved.
* JS relational comparison is modelled for same-type strings, and for
  number/null/bool via numeric coercion; coercion of numeric strings and
  of objects is not modelled (comparisons involving them are `false`,
  matching the documented `undefined` behaviour).
* JS `Array.prototype.sort` (stable) is modelled by `List.mergeSort`
  with `le a b := cmp a b ≤ 0`.
-/

/-- JSON-ish runtime values as stored in documents and filters. -/
inductive Value where
  | vundefined : Value
  | vnull : Value
  | vbool : Bool → Value
  | vnum : ℚ → Value
  | vstr : String → Value
  | vobj : List (String × Value) → Value

/-- JS truthiness of a value (`undefined`, `null`, `false`, `0`, `""` are falsy). -/
def jsTruthy : Value → Bool
  | .vundefined => false
  | .vnull => false
  | .vbool b => b
  | .vnum q => q ≠ 0
  | .vstr s => s ≠ ""
  | .vobj _ => true

/-- JS strict equality `===`.  Object operands compare by reference, which is
`false` for the independently constructed values flowing through filters. -/
def jsEqStrict : Value → Value → Bool
  | .vundefined, .vundefined => true
  | .vnull, .vnull => true
  | .vbool a, .vbool b => a == b
  | .vnum a, .vnum b => a == b
  | .vstr a, .vstr b => a == b
  | _, _ => false

/-- Numeric coercion used by JS relational operators (`null → 0`,
booleans to `0/1`); strings, objects and `undefined` are not coerced. -/
def toNumM : Value → Option ℚ
  | .vnum q => some q
  | .vnull => some 0
  | .vbool b => some (if b then 1 else 0)
  | _ => none

/-- JS `<` restricted as described in the header comment. -/
def jsLt : Value → Value → Bool
  | .vstr a, .vstr b => decide (a < b)
  | a, b =>
    match toNumM a, toNumM b with
    | some p, some q => decide (p < q)
    | _, _ => false

/-- JS `<=` under the same restriction. -/
def jsLe : Value → Value → Bool
  | .vstr a, .vstr b => decide (a ≤ b)
  | a, b =>
    match toNumM a, toNumM b with
    | some p, some q => decide (p ≤ q)
    | _, _ => false

/-- One step of dotted-path resolution: `prev && prev[curr] !== undefined
? prev[curr] : undefined`. -/
def valueStep (prev : Value) (curr : String) : Value :=
  if jsTruthy prev then
    match prev with
    | .vobj fields =>
      match fields.lookup curr with
      | some v => v
      | none => .vundefined
    | _ => .vundefined
  else .vundefined

/-- `getNestedValue` on a plain value: fold the dotted path. -/
def getNestedValue (v : Value) (path : String) : Value :=
  (path.splitOn ".").foldl valueStep v

/-- A stored document: the five reserved metadata fields plus the user
payload (`data`, reserved keys already stripped on write). -/
structure Document where
  data : List (String × Value)
  docId : String
  coll : String
  version : ℕ
  createdAt : ℕ
  updatedAt : ℕ

/-- Dotted-path field access on a document; the reserved fields live at
the top level of the JS object. -/
def Document.getField (d : Document) (path : String) : Value :=
  match path.splitOn "." with
  | [] => .vundefined
  | p :: rest =>
    let top : Value :=
      if p = "_id" then .vstr d.docId
      else if p = "_collection" then .vstr d.coll
      else if p = "_version" then .vnum d.version
      else if p = "_createdAt" then .vnum d.createdAt
      else if p = "_updatedAt" then .vnum d.updatedAt
      else match d.data.lookup p with
        | some v => v
        | none => .vundefined
    rest.foldl valueStep top

/-- Filter operators admitted by the shard store. -/
inductive FilterOp where
  | eq | ne | gt | ge | lt | le
deriving DecidableEq

/-- A query filter `{field, operator, value}`. -/
structure QueryFilter where
  field : String
  op : FilterOp
  value : Value

/-- The body of `applyFilters`: one filter evaluated on one document
(the `switch` over the operator). -/
def matchesFilter (doc : Document) (f : QueryFilter) : Bool :=
  let fieldValue := doc.getField f.field
  match f.op with
  | .eq => jsEqStrict fieldValue f.value
  | .ne => !jsEqStrict fieldValue f.value
  | .gt => jsLt f.value fieldValue
  | .ge => jsLe f.value fieldValue
  | .lt => jsLt fieldValue f.value
  | .le => jsLe fieldValue f.value

/-- `applyFilters`: keep documents on which every filter holds. -/
def applyFilters (documents : List Document) (filters : List QueryFilter) :
    List Document :=
  documents.filter (fun doc => filters.all (fun f => matchesFilter doc f))

/-- One sort key `(field, asc|desc)`. -/
structure SortKey where
  field : String
  asc : Bool

/-- The comparator closure of `applySorting` / `sortResults`, returning
`-1`, `1` or falling through to the next key. -/
def cmpDocs : List SortKey → Document → Document → Int
  | [], _, _ => 0
  | k :: rest, a, b =>
    let aValue := a.getField k.field
    let bValue := b.getField k.field
    if jsEqStrict aValue bValue then cmpDocs rest a b
    else
      let comparison : Int := if jsLt aValue bValue then -1 else 1
      if k.asc then comparison else -comparison

/-- `applySorting` (identical to the executor module `sortResults`):
stable sort by the comparator. -/
def applySorting (documents : List Document) (sort : List SortKey) :
    List Document :=
  documents.mergeSort (fun a b => cmpDocs sort a b ≤ 0)

/-- `CONFIG.MAX_QUERY_RESULTS`. -/
def MAX_QUERY_RESULTS : ℕ := 1000

/-- JS `x || d` on an optional number used for option defaults: both a
missing value and `0` fall back to the default. -/
def jsOrNat (x : Option ℕ) (d : ℕ) : ℕ :=
  match x with
  | some v => if v = 0 then d else v
  | none => d

/-- Query options as received (`limit`, `offset`, `sort` all optional). -/
structure QueryOptions where
  limit : Option ℕ
  offset : Option ℕ
  sort : Option (List SortKey)

/-- The `{results, metadata}` payload of a query response. -/
structure QueryReply where
  results : List Document
  total : ℕ
  limit : ℕ
  offset : ℕ

/-- Per-shard state: durable key→document storage plus the in-memory
collection index `collection → set<id>` (insertion order kept). -/
structure SOState where
  storage : List ((String × String) × Document)
  collections : List (String × List String)

/-- Membership-respecting append used to model `Set.add`. -/
def addSet (l : List String) (x : String) : List String :=
  if x ∈ l then l else l ++ [x]

/-- Assoc-list update with JS object/Map semantics: replace in place,
else append. -/
def assocSet {α : Type} [DecidableEq α] {β : Type} :
    List (α × β) → α → β → List (α × β)
  | [], k, v => [(k, v)]
  | (k0, v0) :: rest, k, v =>
    if k0 = k then (k0, v) :: rest else (k0, v0) :: assocSet rest k v

/-- The reserved field names stripped from an incoming payload. -/
def reservedFields : List String :=
  ["_id", "_collection", "_version", "_createdAt", "_updatedAt"]

/-- `StorageObject.handlePut` (storage effects on the document and the
collection index; `now` is the `Date.now()` sample).  Returns the
response document together with the updated state. -/
def handlePut (st : SOState) (collection id : String)
    (body : List (String × Value)) (now : ℕ) : Document × SOState :=
  let existingDoc := st.storage.lookup (collection, id)
  let currentVersion := match existingDoc with
    | some d => d.version
    | none => 0
  let cleanBody := body.filter (fun kv => ¬ kv.1 ∈ reservedFields)
  let document : Document :=
    { data := cleanBody
      docId := id
      coll := collection
      version := currentVersion + 1
      createdAt := match existingDoc with
        | some d => if d.createdAt = 0 then now else d.createdAt
        | none => now
      updatedAt := now }
  let collIds := match st.collections.lookup collection with
    | some ids => ids
    | none => []
  (document,
    { storage := assocSet st.storage (collection, id) document
      collections := assocSet st.collections collection (addSet collIds id) })

/-- `StorageObject.handleQuery` after request parsing: default the
options (JS `||`), early-return on a missing/empty collection, then
batch-load, filter, sort, count and paginate. -/
def handleQuery (st : SOState) (collection : String)
    (filters : List QueryFilter) (options : QueryOptions) : QueryReply :=
  let qlimit := jsOrNat options.limit MAX_QUERY_RESULTS
  let qoffset := jsOrNat options.offset 0
  let collectionSet := match st.collections.lookup collection with
    | some ids => ids
    | none => []
  if collectionSet.length = 0 then
    { results := [], total := 0, limit := qlimit, offset := qoffset }
  else
    let documents := collectionSet.filterMap
      (fun id => st.storage.lookup (collection, id))
    let r1 := if filters.length ≠ 0 then applyFilters documents filters
              else documents
    let r2 := match options.sort with
      | some s => applySorting r1 s
      | none => r1
    let total := r2.length
    let r3 := if qoffset ≠ 0 then r2.drop qoffset else r2
    let r4 := if qlimit ≠ 0 then r3.take qlimit else r3
    { results := r4
      total := total
      limit := if qlimit = 0 then MAX_QUERY_RESULTS else qlimit
      offset := qoffset }

/-- The documents the shard holds for a collection (via the index). -/
def docsOf (st : SOState) (collection : String) : List Document :=
  (match st.collections.lookup collection with
    | some ids => ids
    | none => []).filterMap (fun id => st.storage.lookup (collection, id))

/-- `sortResults` from the executor module (textually the same comparator
sort as `applySorting`). -/
def sortResults (results : List Document) (sort : List SortKey) :
    List Document :=
  results.mergeSort (fun a b => cmpDocs sort a b ≤ 0)

/-- Whether a value is JS `undefined`. -/
def Value.isUndefined : Value → Bool
  | .vundefined => true
  | _ => false

/-- `setNestedValue` restricted to the payload fields: walk the dotted
path, creating empty objects for missing links; an existing non-object
link stops the write (the JS original would throw there in strict mode). -/
def setNestedParts : List (String × Value) → List String → Value →
    List (String × Value)
  | fields, [], _ => fields
  | fields, [last], v => assocSet fields last v
  | fields, part :: rest, v =>
    match fields.lookup part with
    | some (.vobj inner) => assocSet fields part (.vobj (setNestedParts inner rest v))
    | some _ => fields
    | none => assocSet fields part (.vobj (setNestedParts [] rest v))

/-- `applyProjection`: keep the reserved metadata, then copy each
projected dotted path whose value is defined. -/
def applyProjection (results : List Document) (projection : List String) :
    List Document :=
  results.map (fun doc =>
    { doc with data := projection.foldl (fun acc field =>
        let value := doc.getField field
        if value.isUndefined then acc
        else setNestedParts acc (field.splitOn ".") value) [] })

/-- A shard target of a query plan. -/
structure ShardTarget where
  shardId : String
  filters : List QueryFilter
  options : QueryOptions

/-- A query execution plan. -/
structure QueryPlan where
  collection : String
  targets : List ShardTarget
  parallel : Bool
  requiresMerge : Bool
  projection : Option (List String)
  options : QueryOptions

/-- `createQueryPlan`: one target per shard (offset dropped, limit
dropped when a sort is present), `requiresMerge` iff several shards or a
sort; fails (`None`) on an empty shard list. -/
def createQueryPlan (collection : String) (filters : List QueryFilter)
    (projection : Option (List String)) (options : QueryOptions)
    (shardIds : List String) : Option QueryPlan :=
  if shardIds.length = 0 then none
  else some
    { collection := collection
      targets := shardIds.map (fun shardId =>
        { shardId := shardId
          filters := filters
          options :=
            { limit := if options.sort.isSome then none else options.limit
              offset := none
              sort := options.sort } })
      parallel := true
      requiresMerge := decide (1 < shardIds.length) || options.sort.isSome
      projection := projection
      options := options }

/-- `estimateQueryCost`: base cost one per shard, `×1.5` when merging,
`×(1.2·|sort|)` when sorting. -/
def estimateQueryCost (plan : QueryPlan) : ℚ :=
  let cost : ℚ := plan.targets.length
  let cost := if plan.requiresMerge then cost * (3 / 2) else cost
  match plan.options.sort with
  | some s => if 0 < s.length then cost * ((6 / 5) * s.length) else cost
  | none => cost

/-- `MAX_QUERY_COST`. -/
def MAX_QUERY_COST : ℚ := 100

/-- `isQueryPlanTooExpensive`. -/
def isQueryPlanTooExpensive (plan : QueryPlan) : Bool :=
  decide (estimateQueryCost plan > MAX_QUERY_COST)

/-- The cost formula exactly as the specification states it:
`|targets| × (1.5 if merge else 1) × (1 + 0.2·|sort|)`. -/
def specQueryCost (plan : QueryPlan) : ℚ :=
  (plan.targets.length : ℚ) * (if plan.requiresMerge then 3 / 2 else 1) *
    (1 + (1 / 5) * (match plan.options.sort with
      | some s => (s.length : ℚ)
      | none => 0))

/-- The result one shard contributes to a scatter-gather query. -/
structure ShardQueryResult where
  shardId : String
  results : List Document
  total : ℕ

/-- The executor merge step `mergeResults`: a fast path returns a lone
shard result untouched when no merge is required; otherwise concatenate,
sum totals, then conditionally sort, project and paginate. -/
def mergeResults (shardResults : List ShardQueryResult) (plan : QueryPlan) :
    QueryReply :=
  match plan.requiresMerge, shardResults with
  | false, [r] =>
    { results := r.results
      total := r.total
      limit := jsOrNat plan.options.limit MAX_QUERY_RESULTS
      offset := jsOrNat plan.options.offset 0 }
  | _, _ =>
    let allResults := shardResults.foldl (fun acc r => acc ++ r.results) []
    let totalResults := shardResults.foldl (fun acc r => acc + r.total) 0
    let r1 := match plan.options.sort with
      | some s => if 0 < s.length then sortResults allResults s else allResults
      | none => allResults
    let r2 := match plan.projection with
      | some p => if 0 < p.length then applyProjection r1 p else r1
      | none => r1
    let offset := jsOrNat plan.options.offset 0
    let limit := jsOrNat plan.options.limit MAX_QUERY_RESULTS
    { results := (r2.drop offset).take limit
      total := totalResults
      limit := limit
      offset := offset }

/-- The merge step as the specification words it: concatenate the
shards' result lists, sum their totals, then apply sort, projection,
offset and limit in this order. -/
def mergeSpec (shardResults : List ShardQueryResult) (plan : QueryPlan) :
    QueryReply :=
  let allResults := (shardResults.map (fun r => r.results)).flatten
  let total := (shardResults.map (fun r => r.total)).sum
  let sorted := match plan.options.sort with
    | some s => if 0 < s.length then sortResults allResults s else allResults
    | none => allResults
  let projected := match plan.projection with
    | some p => if 0 < p.length then applyProjection sorted p else sorted
    | none => sorted
  let offset := jsOrNat plan.options.offset 0
  let limit := jsOrNat plan.options.limit MAX_QUERY_RESULTS
  { results := (projected.drop offset).take limit
    total := total
    limit := limit
    offset := offset }

/-- The specification pipeline for `QUERY`, written from the spec text:
apply the AND of the filters, apply the sort, slice
`[offset, offset+limit)`; `total` is the post-filter pre-pagination
count. -/
def querySpec (st : SOState) (collection : String)
    (filters : List QueryFilter) (limit offset : ℕ)
    (sort : Option (List SortKey)) : QueryReply :=
  let docs := docsOf st collection
  let filtered := docs.filter (fun d => filters.all (fun f => matchesFilter d f))
  let sorted := match sort with
    | some s => applySorting filtered s
    | none => filtered
  { results := (sorted.drop offset).take limit
    total := filtered.length
    limit := limit
    offset := offset }

/-- Transaction lifecycle statuses. -/
inductive TxStatus where
  | pending | preparing | prepared | committing | committed | aborting | aborted
deriving DecidableEq

/-- Kinds of operations in a transaction. -/
inductive OpKind where
  | read | write | delete
deriving DecidableEq

/-- One operation of a transaction. -/
structure TxOperation where
  kind : OpKind
  collection : String
  documentId : String
deriving DecidableEq

/-- The coordinator's durable per-transaction state. -/
structure TxState where
  status : TxStatus
  operations : List TxOperation
  participants : List String
  preparedParticipants : List String
  committedParticipants : List String
  abortedParticipants : List String
  startedAt : ℕ
  expiresAt : ℕ
  preparedAt : Option ℕ
  committedAt : Option ℕ
  abortedAt : Option ℕ
  error : Option String
deriving DecidableEq

/-- `getParticipants`: the distinct collections of the operations, in
first-occurrence order, prefixed with `shard-`. -/
def getParticipants (operations : List TxOperation) : List String :=
  (operations.foldl (fun acc op => addSet acc op.collection) []).map
    (fun c => "shard-" ++ c)

/-- `handleCreateTransaction`: the fresh `PENDING` transaction record. -/
def createTransaction (operations : List TxOperation) (now timeout : ℕ) :
    TxState :=
  { status := .pending
    operations := operations
    participants := getParticipants operations
    preparedParticipants := []
    committedParticipants := []
    abortedParticipants := []
    startedAt := now
    expiresAt := now + timeout
    preparedAt := none
    committedAt := none
    abortedAt := none
    error := none }

/-- `abortTransaction`: participant abort faults are only logged, so the
transaction always ends `ABORTED` with its abort time recorded. -/
def abortTransaction (s : TxState) (now : ℕ) : TxState :=
  { s with status := .aborted, abortedAt := some now }

/-- One coordinator handler invocation.  Requests whose outcome depends
on the participants' replies carry that outcome (`ok`); `now` is the
`Date.now()` sample taken inside the handler. -/
inductive TxEvent where
  | prepareReq (ok : Bool) (msg : String) (now : ℕ)
  | commitReq (ok : Bool) (now : ℕ)
  | abortReq (now : ℕ)
  | notifPrepared (pid : String) (now : ℕ)
  | notifCommitted (pid : String) (now : ℕ)
  | notifAborted (pid : String) (err : Option String) (now : ℕ)
  | timeoutFire (now : ℕ)

/-- The coordinator step function: each handler of
`TransactionCoordinator` as a transformer of the transaction's state,
paired with the HTTP status of the response (`0` for the timer, which
answers nobody). -/
def stepTx (s : TxState) : TxEvent → TxState × ℕ
  | .prepareReq ok msg now =>
    if s.status ≠ .pending then (s, 409)
    else if ok then ({ s with status := .prepared, preparedAt := some now }, 200)
    else (abortTransaction { s with status := .aborting, error := some msg } now, 500)
  | .commitReq ok now =>
    if s.status ≠ .prepared then (s, 409)
    else if ok then
      ({ s with status := .committed, committedAt := some now }, 200)
    else ({ s with status := .committing }, 500)
  | .abortReq now =>
    if s.status = .committed ∨ s.status = .committing then (s, 409)
    else if s.status = .aborted then (s, 200)
    else (abortTransaction { s with status := .aborting } now, 200)
  | .notifPrepared pid now =>
    let s1 := { s with preparedParticipants := addSet s.preparedParticipants pid }
    if s1.status = .preparing ∧
        s1.preparedParticipants.length = s1.participants.length then
      ({ s1 with status := .prepared, preparedAt := some now }, 200)
    else (s1, 200)
  | .notifCommitted pid now =>
    let s1 := { s with committedParticipants := addSet s.committedParticipants pid }
    if s1.status = .committing ∧
        s1.committedParticipants.length = s1.participants.length then
      ({ s1 with status := .committed, committedAt := some now }, 200)
    else (s1, 200)
  | .notifAborted pid err now =>
    let s1 := { s with
      abortedParticipants := addSet s.abortedParticipants pid
      error := match s.error, err with
        | none, some e => some ("Aborted by participant " ++ pid ++ ": " ++ e)
        | _, _ => s.error }
    if s1.status = .preparing ∨ s1.status = .prepared then
      (abortTransaction { s1 with status := .aborting } now, 200)
    else if s1.status = .aborting ∧
        s1.abortedParticipants.length = s1.participants.length then
      ({ s1 with status := .aborted, abortedAt := some now }, 200)
    else (s1, 200)
  | .timeoutFire now =>
    if s.status = .pending ∨ s.status = .preparing ∨ s.status = .prepared then
      (abortTransaction
        { s with status := .aborting, error := some "Transaction timed out" } now, 0)
    else (s, 0)

/-- Reachable coordinator states: freshly created transactions closed
under handler steps. -/
inductive TxReach : TxState → Prop where
  | init (operations : List TxOperation) (now timeout : ℕ) :
      TxReach (createTransaction operations now timeout)
  | step (s : TxState) (e : TxEvent) : TxReach s → TxReach (stepTx s e).1

/-- Node performance metrics. -/
structure NodeMetricsR where
  latency : ℚ
  loadFactor : ℚ
  availability : ℚ
deriving DecidableEq

/-- Routing-table node status. -/
inductive NodeStatus where
  | active | inactive | recovering
deriving DecidableEq

/-- Routing-table node entry. -/
structure NodeInfo where
  location : String
  metrics : NodeMetricsR
  status : NodeStatus
deriving DecidableEq

/-- A key-range shard assignment of a collection. -/
structure ShardInfo where
  shardId : String
  keyLo : String
  keyHi : String
  nodeId : String
deriving DecidableEq

/-- A versioned routing table. -/
structure RoutingTable where
  collections : List (String × List ShardInfo)
  nodes : List (String × NodeInfo)
  version : ℕ
deriving DecidableEq

/-- The state of `ShardRouter` in `src/routing/router.ts`: its
collection map, node map, hash-ring membership, locality registrations
and the adopted routing-table version. -/
structure RouterState where
  collections : List (String × List ShardInfo)
  nodes : List (String × NodeInfo)
  ringNodes : List String
  localityNodes : List (String × (String × NodeMetricsR))
  routingTableVersion : ℕ
deriving DecidableEq

/-- A fresh `ShardRouter`. -/
def routerInit : RouterState :=
  { collections := []
    nodes := []
    ringNodes := []
    localityNodes := []
    routingTableVersion := 0 }

/-- `ShardRouter.updateRoutingTable` of `src/routing/router.ts`: clear
and refill the collection and node maps, add every table node to the
hash ring (`addNode` is idempotent and nothing is removed), register
each node with the locality manager, then adopt the table's version —
with no comparison against the current version. -/
def updateRoutingTable (r : RouterState) (t : RoutingTable) : RouterState :=
  { collections := t.collections
    nodes := t.nodes
    ringNodes := t.nodes.foldl (fun ring p => addSet ring p.1) r.ringNodes
    localityNodes := t.nodes.foldl
      (fun ln p => assocSet ln p.1 (p.2.location, p.2.metrics)) r.localityNodes
    routingTableVersion := t.version }

/-- The state of the second `ShardRouter` revision (the one the spec
describes): the whole routing table plus ring membership and the edge
locality registrations. -/
structure RouterState2 where
  routingTable : RoutingTable
  ringNodes : List String
  edgeNodes : List (String × (String × NodeMetricsR))
deriving DecidableEq

/-- `updateRoutingTable` of the second router revision: ignore tables
whose version is not strictly newer; otherwise replace the table,
reconcile the ring (drop departed nodes, add new active ones — the add
check uses the pre-removal snapshot) and re-register active nodes. -/
def updateRoutingTable2 (r : RouterState2) (t : RoutingTable) : RouterState2 :=
  if t.version ≤ r.routingTable.version then r
  else
    let activeNodes := (t.nodes.filter (fun p => p.2.status = .active)).map
      (fun p => p.1)
    let afterRemove := r.ringNodes.filter (fun n => n ∈ activeNodes)
    let afterAdd := activeNodes.foldl
      (fun ring n => if n ∈ r.ringNodes then ring else addSet ring n) afterRemove
    let edges := t.nodes.foldl (fun e p =>
      if p.2.status = .active then assocSet e p.1 (p.2.location, p.2.metrics)
      else e.filter (fun q => q.1 ≠ p.1)) r.edgeNodes
    { routingTable := t, ringNodes := afterAdd, edgeNodes := edges }

/-- Truncation to an unsigned 32-bit value (`x >>> 0` on integral JS
numbers, and the implicit `ToInt32` of `^`/`<<` up to the multiple of
`2^32` that every consumer discards). -/
def toUint32 (x : ℕ) : ℕ := x % 4294967296

/-- The ring's string hash (FNV-1a offset basis, xor with each UTF-16
unit, then the shift-add mix), all consumers reduced mod `2^32`. -/
def hashStr (s : String) : ℕ :=
  toUint32 (s.data.foldl (fun h c =>
    let h1 := Nat.xor (toUint32 h) (toUint32 c.toNat)
    h1 + toUint32 (h1 * 2) + toUint32 (h1 * 16) + toUint32 (h1 * 128) +
      toUint32 (h1 * 256) + toUint32 (h1 * 16777216)) 2166136261)

/-- The consistent-hash ring: position → node entries and the sorted
position array kept alongside. -/
structure RingState where
  ring : List (ℕ × String)
  sortedPositions : List ℕ

/-- The binary-search loop of `findPositionIndex`, with `hi1` standing
for `high + 1` so the bounds stay natural numbers. -/
def findLoop (a : List ℕ) (pos lo hi1 : ℕ) : ℕ :=
  if h : lo < hi1 then
    let mid := (lo + (hi1 - 1)) / 2
    let midPosition := a.getD mid 0
    if midPosition = pos then mid
    else if midPosition < pos then
      have : hi1 - (mid + 1) < hi1 - lo := by omega
      findLoop a pos (mid + 1) hi1
    else
      have hm : mid < hi1 := by omega
      have : mid - lo < hi1 - lo := by omega
      findLoop a pos lo mid
  else if lo < a.length then lo else 0
termination_by hi1 - lo

/-- `findPositionIndex`: binary search for the first sorted position
`≥ pos`, wrapping to index 0 when the search runs off the end. -/
def findPositionIndex (rs : RingState) (position : ℕ) : ℕ :=
  findLoop rs.sortedPositions position 0 rs.sortedPositions.length

/-- `ConsistentHashRing.getNode`: fail on an empty ring, else hash the
key, binary-search the position array and read the owning node. -/
def getNode (rs : RingState) (key : String) : Option String :=
  if rs.ring.length = 0 then none
  else
    let keyPosition := hashStr key
    let index := findPositionIndex rs keyPosition
    let position := rs.sortedPositions.getD index 0
    rs.ring.lookup position

/-- The ring position the specification designates for a key hash: the
smallest position `≥ h`, wrapping to the smallest position overall when
none exists. -/
def specTarget (positions : List ℕ) (h : ℕ) : Option ℕ :=
  match (positions.filter (fun p => h ≤ p)).min? with
  | some p => some p
  | none => positions.min?

/-- A tracked client location. -/
structure ClientLocation where
  location : String
  lastSeen : ℕ

/-- Node tracking data of the edge locality manager. -/
structure NodeData where
  location : String
  metrics : NodeMetricsR
  lastUpdated : ℕ

/-- State of `EdgeLocalityManager`. -/
structure EdgeState where
  clientLocations : List (String × ClientLocation)
  nodeData : List (String × NodeData)
  locationToNodes : List (String × List String)

namespace EdgeLocalityManager

/-- `EdgeLocalityManager.getOptimalNode`: single-candidate shortcut, a
hard-wired test special case, then restrict to tracked nodes, and pick
the first of the client location's preference list that is valid —
falling back to the first valid or first candidate. -/
def getOptimalNode (st : EdgeState) (clientId : String)
    (possibleNodes : List String) : Option String :=
  match possibleNodes with
  | [] => none
  | [n] => some n
  | _ =>
    let node1Hot := match st.nodeData.lookup "node1" with
      | some nd => decide (400 < nd.metrics.latency)
      | none => false
    if clientId = "client2" ∧ "node1" ∈ possibleNodes ∧
        "node2" ∈ possibleNodes ∧ node1Hot = true then
      some "node2"
    else
      let validNodes := possibleNodes.filter
        (fun nid => (st.nodeData.lookup nid).isSome)
      if validNodes.length = 0 then possibleNodes.head?
      else
        match st.clientLocations.lookup clientId with
        | none => validNodes.head?
        | some clientLocation =>
          let locationNodes := match st.locationToNodes.lookup
              clientLocation.location with
            | some l => l
            | none => []
          match locationNodes.find? (fun nid => nid ∈ validNodes) with
          | some nid => some nid
          | none => validNodes.head?

end EdgeLocalityManager

/-- Node tracking data of the locality-aware router. -/
structure NodePerformance where
  location : String
  metrics : NodeMetricsR
  lastUpdated : ℕ

/-- State of `LocalityAwareRouter`. -/
structure LARState where
  clients : List (String × ClientLocation)
  nodes : List (String × NodePerformance)
  locationDistances : List (String × List (String × ℚ))

namespace LocalityAwareRouter

/-- `CONFIG.LATENCY_THRESHOLD_MS`. -/
def LATENCY_THRESHOLD_MS : ℚ := 100

/-- `CONFIG.LOAD_FACTOR_THRESHOLD`. -/
def LOAD_FACTOR_THRESHOLD : ℚ := 4 / 5

/-- `getLocationDistance`: 0 for equal locations, the matrix entry when
known, else the 300 ms sentinel. -/
def getLocationDistance (st : LARState) (locationA locationB : String) : ℚ :=
  if locationA = locationB then 0
  else match st.locationDistances.lookup locationA with
    | some m =>
      match m.lookup locationB with
      | some d => d
      | none => 300
    | none => 300

/-- `getNodeByMetrics`: score each node (untracked nodes score
`Infinity`), stable-sort ascending, take the first. -/
def getNodeByMetrics (st : LARState) (nodeIds : List String) : Option String :=
  match nodeIds with
  | [] => none
  | [n] => some n
  | _ =>
    let nodeScores := nodeIds.map (fun nid =>
      (nid, match st.nodes.lookup nid with
        | none => (⊤ : WithTop ℚ)
        | some node =>
          ((node.metrics.latency / LATENCY_THRESHOLD_MS +
            node.metrics.loadFactor / LOAD_FACTOR_THRESHOLD +
            (1 - node.metrics.availability) : ℚ) : WithTop ℚ)))
    ((nodeScores.mergeSort (fun a b => a.2 ≤ b.2)).head?).map (fun p => p.1)

/-- `getNodeByLoad`: linear scan for the lowest load factor, starting
from the first candidate with an `Infinity` sentinel. -/
def getNodeByLoad (st : LARState) (nodeIds : List String) : Option String :=
  match nodeIds with
  | [] => none
  | [n] => some n
  | first :: rest =>
    some (((first :: rest).foldl (fun best nid =>
      match st.nodes.lookup nid with
      | some node =>
        if ((node.metrics.loadFactor : ℚ) : WithTop ℚ) < best.2 then
          (nid, ((node.metrics.loadFactor : ℚ) : WithTop ℚ))
        else best
      | none => best) (first, (⊤ : WithTop ℚ))).1)

/-- `getClosestNode`: sort candidates by location distance, keep the
ties at the closest distance, and break them by metrics. -/
def getClosestNode (st : LARState) (location : String)
    (nodeIds : List String) : Option String :=
  match nodeIds with
  | [] => none
  | [n] => some n
  | _ =>
    let nodeDistances := nodeIds.map (fun nid =>
      (nid, match st.nodes.lookup nid with
        | none => (⊤ : WithTop ℚ)
        | some node =>
          ((getLocationDistance st location node.location : ℚ) : WithTop ℚ)))
    let sorted := nodeDistances.mergeSort (fun a b => a.2 ≤ b.2)
    match sorted with
    | [] => none
    | d0 :: _ =>
      let closestNodes := (sorted.filter (fun p => p.2 = d0.2)).map
        (fun p => p.1)
      match closestNodes with
      | [n] => some n
      | _ => getNodeByMetrics st closestNodes

/-- `LocalityAwareRouter.getOptimalNode`: single-candidate shortcut;
unknown clients load-balance; otherwise prefer same-location nodes by
metrics, else the closest location. -/
def getOptimalNode (st : LARState) (clientId : String)
    (possibleNodes : List String) : Option String :=
  match possibleNodes with
  | [] => none
  | [n] => some n
  | _ =>
    match st.clients.lookup clientId with
    | none => getNodeByLoad st possibleNodes
    | some clientLocation =>
      let nodesInSameLocation := possibleNodes.filter (fun nid =>
        match st.nodes.lookup nid with
        | some node => node.location = clientLocation.location
        | none => false)
      if 0 < nodesInSameLocation.length then
        getNodeByMetrics st nodesInSameLocation
      else getClosestNode st clientLocation.location possibleNodes

end LocalityAwareRouter

/-- Iterate `handlePut` over a sequence of `(body, now)` samples on one
`(collection, id)`, collecting the response documents in order. -/
def putMany (st : SOState) (collection id : String) :
    List (List (String × Value) × ℕ) → SOState × List Document
  | [] => (st, [])
  | (body, now) :: rest =>
    let r := handlePut st collection id body now
    let r2 := putMany r.2 collection id rest
    (r2.1, r.1 :: r2.2)

/-- The response documents of a PUT sequence. -/
def putDocs (st : SOState) (collection id : String)
    (ops : List (List (String × Value) × ℕ)) : List Document :=
  (putMany st collection id ops).2

/-- The cost formula the code actually computes, in closed form:
`|targets| × (1.5 if merge else 1) × (1.2·|sort| if a non-empty sort is
present else 1)`. -/
def amendedQueryCost (plan : QueryPlan) : ℚ :=
  (plan.targets.length : ℚ) * (if plan.requiresMerge then 3 / 2 else 1) *
    (match plan.options.sort with
      | some s => if 0 < s.length then (6 / 5) * s.length else 1
      | none => 1)

/-- A sample user document. -/
def docA : Document :=
  { data := [("name", .vstr "Alice"), ("age", .vnum 30)]
    docId := "u1", coll := "users"
    version := 1, createdAt := 100, updatedAt := 100 }

/-- A second sample user document. -/
def docB : Document :=
  { data := [("name", .vstr "Bob"), ("age", .vnum 25)]
    docId := "u2", coll := "users"
    version := 1, createdAt := 110, updatedAt := 110 }

/-- A shard state holding exactly one document of collection `users`. -/
def st1 : SOState :=
  { storage := [(("users", "u1"), docA)]
    collections := [("users", ["u1"])] }

/-- A write operation on collection `users`. -/
def txOpW : TxOperation := { kind := .write, collection := "users", documentId := "u1" }

/-- A freshly created single-participant transaction. -/
def txFresh : TxState := createTransaction [txOpW] 100 10000

/-- A transaction sitting in `COMMITTED`. -/
def txCommittedState : TxState :=
  { txFresh with status := .committed, committedAt := some 300 }

/-- A single-participant transaction in `PREPARING`. -/
def txPreparingState : TxState :=
  { txFresh with status := .preparing }

/-- A routing table at version 2 carrying node `node1`. -/
def rtV2 : RoutingTable :=
  { collections := [("users", [])]
    nodes := [("node1", { location := "us-east"
                          metrics := { latency := 10, loadFactor := 0, availability := 1 }
                          status := .active })]
    version := 2 }

/-- A conflicting routing table at the older version 1. -/
def rtV1 : RoutingTable :=
  { collections := [("different", [])]
    nodes := [("node2", { location := "eu-west"
                          metrics := { latency := 20, loadFactor := 0, availability := 1 }
                          status := .active })]
    version := 1 }

/-- A fresh second-revision router. -/
def router2Init : RouterState2 :=
  { routingTable := { collections := [], nodes := [], version := 0 }
    ringNodes := []
    edgeNodes := [] }

/-- An empty edge locality manager state. -/
def edgeState0 : EdgeState :=
  { clientLocations := [], nodeData := [], locationToNodes := [] }

/-- An empty locality-aware router state. -/
def larState0 : LARState :=
  { clients := [], nodes := [], locationDistances := [] }

/-- A concrete three-node ring used to instantiate the lookup theorem. -/
def ring3 : RingState :=
  { ring := [(10, "a"), (20, "b"), (30, "c")]
    sortedPositions := [10, 20, 30] }

lemma mem_addSet {l : List String} {x y : String} :
    y ∈ addSet l x ↔ y ∈ l ∨ y = x := by
  unfold addSet
  split
  · rename_i h
    constructor
    · exact Or.inl
    · rintro (hy | rfl)
      · exact hy
      · exact h
  · simp [List.mem_append]

/-- C7: the estimated cost of a plan is claimed to be
`|targets| × (1.5 if merge else 1) × (1 + 0.2·|sort|)`; at a plan with a
single target and two sort keys the code instead yields `1.5 × 2.4 = 3.6`
where the claimed formula yields `1.5 × 1.4 = 2.1`. -/
theorem estimateQueryCost_ne_claimed_formula :
    ((createQueryPlan "users" [] none
        { limit := none, offset := none,
          sort := some [{ field := "age", asc := true },
                        { field := "name", asc := true }] }
        ["s1"]).map
      (fun p => (estimateQueryCost p, specQueryCost p))) =
      some (18 / 5, 21 / 10) ∧ (18 / 5 : ℚ) ≠ 21 / 10 := by
  constructor
  · simp only [createQueryPlan, estimateQueryCost, specQueryCost, Option.map]
    norm_num
  · norm_num

/-- C7 (amended): the cost the code computes is
`|targets| × (1.5 if merge else 1) × (1.2·|sort| if a non-empty sort is
present else 1)`, and a plan is rejected as too expensive exactly when
this cost exceeds 100. -/
theorem estimateQueryCost_closed_form :
    ∀ plan : QueryPlan,
      estimateQueryCost plan = amendedQueryCost plan ∧
      (isQueryPlanTooExpensive plan = true ↔
        MAX_QUERY_COST < estimateQueryCost plan) := by
  intro plan
  constructor
  · unfold estimateQueryCost amendedQueryCost
    cases hs : plan.options.sort with
    | none => cases plan.requiresMerge <;> simp
    | some s =>
      by_cases h : 0 < s.length <;> cases plan.requiresMerge <;> simp [h]
  · simp [isQueryPlanTooExpensive, gt_iff_lt]

/-- C3: a handler step never leaves `COMMITTED` or `ABORTED`; moreover a
commit request is answered with 409 unless the transaction is
`PREPARED`, and an abort request on a `COMMITTING` or `COMMITTED`
transaction is rejected with 409 leaving the state untouched. -/
theorem stepTx_terminal_statuses :
    ∀ (s : TxState) (e : TxEvent),
      ((s.status = .committed → (stepTx s e).1.status = .committed) ∧
       (s.status = .aborted → (stepTx s e).1.status = .aborted)) ∧
      (∀ ok now, (stepTx s (.commitReq ok now)).2 ≠ 409 →
        s.status = .prepared) ∧
      (∀ now, s.status = .committing ∨ s.status = .committed →
        stepTx s (.abortReq now) = (s, 409)) := by
  intro s e
  refine ⟨⟨?_, ?_⟩, ?_, ?_⟩
  · intro h
    cases e <;> simp [stepTx, abortTransaction, h]
  · intro h
    cases e <;> simp [stepTx, abortTransaction, h]
  · intro ok now h
    by_cases hs : s.status = .prepared
    · exact hs
    · exact absurd (by simp [stepTx, hs]) h
  · intro now h
    rcases h with h | h <;> simp [stepTx, h]

/-- C3 witness: an abort request on a committed transaction leaves it
committed. -/
theorem stepTx_terminal_statuses_witness :
    (stepTx txCommittedState (.abortReq 5)).1.status = .committed :=
  (stepTx_terminal_statuses txCommittedState (.abortReq 5)).1.1 rfl

/-- C5: `updateRoutingTable` of `src/routing/router.ts` adopts a stale
table: after versions 2 then 1 the adopted version is 1 and the state
has changed, while the second router revision (which the spec and the
repository's own router test describe) rejects the stale table. -/
theorem updateRoutingTable_adopts_stale_table :
    (updateRoutingTable (updateRoutingTable routerInit rtV2) rtV1).routingTableVersion = 1 ∧
    updateRoutingTable (updateRoutingTable routerInit rtV2) rtV1 ≠
      updateRoutingTable routerInit rtV2 ∧
    updateRoutingTable2 (updateRoutingTable2 router2Init rtV2) rtV1 =
      updateRoutingTable2 router2Init rtV2 := by
  refine ⟨rfl, by decide, by decide⟩

/-- C4: `handleParticipantPrepared` records any notified participant id
without checking membership, so from a reachable (freshly created)
transaction a rogue notification produces a reachable state whose
prepared set is not a subset of the participant list. -/
theorem preparedParticipants_not_subset :
    TxReach (stepTx txFresh (.notifPrepared "rogue" 150)).1 ∧
    ¬ (∀ x ∈ (stepTx txFresh (.notifPrepared "rogue" 150)).1.preparedParticipants,
        x ∈ (stepTx txFresh (.notifPrepared "rogue" 150)).1.participants) := by
  constructor
  · exact TxReach.step _ _ (TxReach.init [txOpW] 100 10000)
  · decide

/-- C4 (amended): the prepared set stays inside the participant list
provided the notified id belongs to it (the handler itself performs no
such check), and while `PREPARING` a notification advances the status
to `PREPARED` exactly when the prepared set reaches the participant
count; in any other status the status is unchanged. -/
theorem prepared_notification_invariant :
    ∀ (s : TxState) (pid : String) (now : ℕ),
      (∀ x ∈ s.preparedParticipants, x ∈ s.participants) →
      pid ∈ s.participants →
      (∀ x ∈ (stepTx s (.notifPrepared pid now)).1.preparedParticipants,
          x ∈ s.participants) ∧
      (s.status = .preparing →
        (((stepTx s (.notifPrepared pid now)).1.status = .prepared) ↔
          (stepTx s (.notifPrepared pid now)).1.preparedParticipants.length =
            s.participants.length)) ∧
      (s.status ≠ .preparing →
        (stepTx s (.notifPrepared pid now)).1.status = s.status) := by
  intro s pid now h1 h2
  have hpp : (stepTx s (.notifPrepared pid now)).1.preparedParticipants =
      addSet s.preparedParticipants pid := by
    simp only [stepTx]
    split <;> rfl
  refine ⟨?_, ?_, ?_⟩
  · intro x hx
    rw [hpp] at hx
    rcases mem_addSet.1 hx with h | rfl
    · exact h1 x h
    · exact h2
  · intro hs
    by_cases hl :
        (addSet s.preparedParticipants pid).length = s.participants.length <;>
      simp [stepTx, hs, hl, hpp]
  · intro hs
    simp only [stepTx]
    rw [if_neg (by simp [hs])]

/-- C4 witness: with the sole actual participant notifying while
`PREPARING`, the invariant theorem applies and the transaction advances
to `PREPARED`. -/
theorem prepared_notification_invariant_witness :
    (stepTx txPreparingState
        (.notifPrepared "shard-users" 7)).1.status = .prepared := by
  have h := prepared_notification_invariant txPreparingState "shard-users" 7
    (by decide) (by decide)
  exact (h.2.1 rfl).mpr (by decide)

/-- C8: a shard query with `options.limit = 0` does not return an empty
result list: the `||` defaulting replaces 0 by `MAX_QUERY_RESULTS`, so
over a one-document collection it returns that document (while `total`
is 1). -/
theorem limit_zero_not_empty :
    (handleQuery st1 "users" []
        { limit := some 0, offset := none, sort := none }).results.length = 1 ∧
    (handleQuery st1 "users" []
        { limit := some 0, offset := none, sort := none }).total = 1 ∧
    (1 : ℕ) ≠ 0 := by
  refine ⟨by decide, by decide, by decide⟩

lemma handleQuery_total (st : SOState) (collection : String)
    (filters : List QueryFilter) (opts : QueryOptions) :
    (handleQuery st collection filters opts).total =
      ((docsOf st collection).filter
        (fun d => filters.all (fun f => matchesFilter d f))).length := by
  unfold handleQuery docsOf
  by_cases hc : (match st.collections.lookup collection with
      | some ids => ids
      | none => []).length = 0
  · have he : (match st.collections.lookup collection with
        | some ids => ids
        | none => []) = [] := List.length_eq_zero.mp hc
    simp [hc, he]
  · simp only [hc, if_false, if_neg hc]
    by_cases hf : filters.length = 0
    · have : filters = [] := List.length_eq_zero.mp hf
      subst this
      cases srt : opts.sort <;>
        simp [applySorting, List.length_mergeSort, List.filter_true]
    · cases srt : opts.sort <;>
        simp [hf, applyFilters, applySorting, List.length_mergeSort]

/-- C8 (amended): a shard query with `limit = 0` behaves exactly as one
with no limit at all — the `||` default substitutes
`MAX_QUERY_RESULTS` — and its `total` equals the number of documents
matching the filters. -/
theorem limit_zero_equals_default_limit :
    ∀ (st : SOState) (collection : String) (filters : List QueryFilter)
      (off : Option ℕ) (srt : Option (List SortKey)),
      handleQuery st collection filters
          { limit := some 0, offset := off, sort := srt } =
        handleQuery st collection filters
          { limit := none, offset := off, sort := srt } ∧
      (handleQuery st collection filters
          { limit := some 0, offset := off, sort := srt }).total =
        ((docsOf st collection).filter
          (fun d => filters.all (fun f => matchesFilter d f))).length := by
  intro st collection filters off srt
  exact ⟨rfl, handleQuery_total st collection filters _⟩

lemma applyFilters_cond (documents : List Document)
    (filters : List QueryFilter) :
    (if filters.length = 0 then documents
      else applyFilters documents filters) =
      documents.filter (fun d => filters.all (fun f => matchesFilter d f)) := by
  by_cases hf : filters.length = 0
  · have he : filters = [] := List.length_eq_zero.mp hf
    subst he
    simp
  · simp [hf, applyFilters]

/-- C1: at `limit = 0` the shard query is not the claimed
filter–sort–slice pipeline: over a one-document collection the code
returns the document while the `[offset, offset+limit)` slice of the
claim is empty. -/
theorem handleQuery_ne_claimed_pipeline :
    (handleQuery st1 "users" []
        { limit := some 0, offset := some 0, sort := none }).results.length = 1 ∧
    (querySpec st1 "users" [] 0 0 none).results.length = 0 := by
  refine ⟨by decide, by decide⟩

/-- C1 (amended): with the defaulted limit — `limit = 0` (or absent)
becomes `MAX_QUERY_RESULTS` — the shard query equals the specification
pipeline: AND of the filters, sort, slice `[offset, offset+limit)`,
with `total` the post-filter pre-pagination count. -/
theorem handleQuery_eq_querySpec :
    ∀ (st : SOState) (collection : String) (filters : List QueryFilter)
      (l o : ℕ) (srt : Option (List SortKey)),
      handleQuery st collection filters
          { limit := some l, offset := some o, sort := srt } =
        querySpec st collection filters
          (if l = 0 then MAX_QUERY_RESULTS else l) o srt := by
  intro st collection filters l o srt
  unfold handleQuery querySpec docsOf
  by_cases hc : (match st.collections.lookup collection with
      | some ids => ids
      | none => []).length = 0
  · have he : (match st.collections.lookup collection with
        | some ids => ids
        | none => []) = [] := List.length_eq_zero.mp hc
    cases srt <;> by_cases hl : l = 0 <;> by_cases ho : o = 0 <;>
      simp [hc, he, jsOrNat, hl, ho, MAX_QUERY_RESULTS, applySorting]
  · cases srt <;> by_cases hl : l = 0 <;> by_cases ho : o = 0 <;>
      simp [hc, jsOrNat, hl, ho, MAX_QUERY_RESULTS, applyFilters_cond,
        applySorting, List.length_mergeSort]

lemma foldl_append_results (l : List ShardQueryResult) (acc : List Document) :
    l.foldl (fun a r => a ++ r.results) acc =
      acc ++ (l.map (fun r => r.results)).flatten := by
  induction l generalizing acc with
  | nil => simp
  | cons r rest ih => simp [ih]

lemma foldl_add_total (l : List ShardQueryResult) (n : ℕ) :
    l.foldl (fun a r => a + r.total) n = n + (l.map (fun r => r.total)).sum := by
  induction l generalizing n with
  | nil => simp
  | cons r rest ih => simp [ih]; omega

/-- C6: when `requiresMerge` is false and a single shard result arrives
— exactly the situation createQueryPlan produces for one target and no
sort — the merge step returns the shard's results untouched, skipping
the claimed offset slicing: with `offset = 1` the code returns 2
documents where the claimed concatenate-sort-project-slice pipeline
returns 1. -/
theorem mergeResults_skips_pipeline_on_fast_path :
    ∃ plan, createQueryPlan "users" [] none
        { limit := some 10, offset := some 1, sort := none } ["s1"] =
          some plan ∧
      (mergeResults [{ shardId := "s1", results := [docA, docB], total := 2 }]
          plan).results.length = 2 ∧
      (mergeSpec [{ shardId := "s1", results := [docA, docB], total := 2 }]
          plan).results.length = 1 := by
  refine ⟨_, rfl, ?_, ?_⟩ <;> decide

/-- C6 (amended): the merge step equals the specification pipeline —
concatenate, sum totals, then sort, projection, offset, limit in this
order — except on the fast path (`requiresMerge` false with exactly one
shard result), where the lone shard's results and total are returned
unchanged. -/
theorem mergeResults_eq_mergeSpec :
    ∀ (shardResults : List ShardQueryResult) (plan : QueryPlan),
      mergeResults shardResults plan =
        match plan.requiresMerge, shardResults with
        | false, [r] =>
          { results := r.results
            total := r.total
            limit := jsOrNat plan.options.limit MAX_QUERY_RESULTS
            offset := jsOrNat plan.options.offset 0 }
        | _, _ => mergeSpec shardResults plan := by
  intro shardResults plan
  have hslow : ∀ (l : List ShardQueryResult),
      (l.foldl (fun a r => a ++ r.results) [] =
        (l.map (fun r => r.results)).flatten) ∧
      (l.foldl (fun a r => a + r.total) 0 =
        (l.map (fun r => r.total)).sum) := by
    intro l
    constructor
    · simpa using foldl_append_results l []
    · simpa using foldl_add_total l 0
  cases hm : plan.requiresMerge with
  | false =>
    match shardResults with
    | [] => simp [mergeResults, mergeSpec, hm, (hslow []).1, (hslow []).2]
    | [r] => simp [mergeResults, hm]
    | r1 :: r2 :: rest =>
      simp [mergeResults, mergeSpec, hm, (hslow (r1 :: r2 :: rest)).1,
        (hslow (r1 :: r2 :: rest)).2]
  | true =>
    match shardResults with
    | [] => simp [mergeResults, mergeSpec, hm, (hslow []).1, (hslow []).2]
    | [r] => simp [mergeResults, mergeSpec, hm, (hslow [r]).1, (hslow [r]).2]
    | r1 :: r2 :: rest =>
      simp [mergeResults, mergeSpec, hm, (hslow (r1 :: r2 :: rest)).1,
        (hslow (r1 :: r2 :: rest)).2]

lemma lookup_assocSet_self {α : Type} [DecidableEq α] [BEq α] [LawfulBEq α]
    {β : Type} (l : List (α × β)) (k : α) (v : β) :
    (assocSet l k v).lookup k = some v := by
  induction l with
  | nil => simp [assocSet, List.lookup]
  | cons p rest ih =>
    obtain ⟨k0, v0⟩ := p
    by_cases h : k0 = k
    · subst h
      simp [assocSet, List.lookup]
    · have hb : (k == k0) = false := by
        simp [beq_eq_false_iff_ne]
        exact fun he => h he.symm
      simp [assocSet, h, List.lookup, hb, ih]

lemma putMany_existing :
    ∀ (ops : List (List (String × Value) × ℕ)) (st : SOState)
      (c i : String) (d : Document),
      st.storage.lookup (c, i) = some d → d.createdAt ≠ 0 →
      ((putMany st c i ops).2.map (fun x => x.version) =
        List.range' (d.version + 1) ops.length) ∧
      ((putMany st c i ops).2.map (fun x => x.createdAt) =
        List.replicate ops.length d.createdAt) ∧
      ((putMany st c i ops).2.map (fun x => x.updatedAt) =
        ops.map (fun p => p.2)) := by
  intro ops
  induction ops with
  | nil =>
    intro st c i d hd hca
    simp [putMany]
  | cons op rest ih =>
    intro st c i d hd hca
    obtain ⟨body, now⟩ := op
    have hdoc : (handlePut st c i body now).1 =
        { data := body.filter (fun kv => ¬ kv.1 ∈ reservedFields)
          docId := i
          coll := c
          version := d.version + 1
          createdAt := d.createdAt
          updatedAt := now } := by
      simp [handlePut, hd, hca]
    have hlook : (handlePut st c i body now).2.storage.lookup (c, i) =
        some (handlePut st c i body now).1 := by
      simp [handlePut, hd, lookup_assocSet_self]
    obtain ⟨hv, hcr, hup⟩ := ih (handlePut st c i body now).2 c i _ hlook
      (by simp [hdoc]; exact hca)
    refine ⟨?_, ?_, ?_⟩
    · simp only [putMany]
      simp [hdoc, hv, List.range'_succ]
    · simp only [putMany]
      simp [hdoc, hcr, List.replicate_succ]
    · simp only [putMany]
      simp [hdoc, hup]

/-- C2: starting from no document at `(collection, id)`, a sequence of
`k` successful PUTs at positive, non-decreasing `Date.now()` samples
yields response documents whose versions are `1..k`, whose `createdAt`
is fixed at the first PUT's timestamp, and whose `updatedAt` values are
the PUT timestamps — hence non-decreasing and at least `createdAt`. -/
theorem put_sequence_versions :
    ∀ (st : SOState) (c i : String) (b0 : List (String × Value)) (t0 : ℕ)
      (rest : List (List (String × Value) × ℕ)),
      st.storage.lookup (c, i) = none → 0 < t0 →
      List.Chain' (· ≤ ·) (t0 :: rest.map (fun p => p.2)) →
      ((putDocs st c i ((b0, t0) :: rest)).map (fun d => d.version) =
        List.range' 1 (rest.length + 1)) ∧
      ((putDocs st c i ((b0, t0) :: rest)).map (fun d => d.createdAt) =
        List.replicate (rest.length + 1) t0) ∧
      ((putDocs st c i ((b0, t0) :: rest)).map (fun d => d.updatedAt) =
        t0 :: rest.map (fun p => p.2)) ∧
      List.Chain' (· ≤ ·)
        ((putDocs st c i ((b0, t0) :: rest)).map (fun d => d.updatedAt)) ∧
      (∀ d ∈ putDocs st c i ((b0, t0) :: rest), d.createdAt ≤ d.updatedAt) := by
  intro st c i b0 t0 rest hnone ht0 hchain
  have hdoc0 : (handlePut st c i b0 t0).1 =
      { data := b0.filter (fun kv => ¬ kv.1 ∈ reservedFields)
        docId := i
        coll := c
        version := 1
        createdAt := t0
        updatedAt := t0 } := by
    simp [handlePut, hnone]
  have hlook : (handlePut st c i b0 t0).2.storage.lookup (c, i) =
      some (handlePut st c i b0 t0).1 := by
    simp [handlePut, hnone, lookup_assocSet_self]
  obtain ⟨hv, hcr, hup⟩ := putMany_existing rest (handlePut st c i b0 t0).2
    c i _ hlook (by simp [hdoc0]; omega)
  have hsplit : putDocs st c i ((b0, t0) :: rest) =
      (handlePut st c i b0 t0).1 ::
        (putMany (handlePut st c i b0 t0).2 c i rest).2 := by
    simp [putDocs, putMany]
  have h1 : (putDocs st c i ((b0, t0) :: rest)).map (fun d => d.version) =
      List.range' 1 (rest.length + 1) := by
    rw [hsplit, List.range'_succ]
    simp [hdoc0, hv, List.range'_succ]
  have h2 : (putDocs st c i ((b0, t0) :: rest)).map (fun d => d.createdAt) =
      List.replicate (rest.length + 1) t0 := by
    rw [hsplit, List.replicate_succ]
    simp [hdoc0, hcr]
  have h3 : (putDocs st c i ((b0, t0) :: rest)).map (fun d => d.updatedAt) =
      t0 :: rest.map (fun p => p.2) := by
    rw [hsplit]
    simp [hdoc0, hup]
  have hpair : ∀ x ∈ rest.map (fun p => p.2), t0 ≤ x := by
    have hp := (List.chain'_iff_pairwise).mp hchain
    exact (List.pairwise_cons.mp hp).1
  refine ⟨h1, h2, h3, ?_, ?_⟩
  · rw [h3]
    exact hchain
  · intro d hd
    have hcd : d.createdAt = t0 := by
      have : d.createdAt ∈ (putDocs st c i ((b0, t0) :: rest)).map
          (fun d => d.createdAt) := List.mem_map_of_mem _ hd
      rw [h2] at this
      exact List.eq_of_mem_replicate this
    have hud : d.updatedAt ∈ t0 :: rest.map (fun p => p.2) := by
      have : d.updatedAt ∈ (putDocs st c i ((b0, t0) :: rest)).map
          (fun d => d.updatedAt) := List.mem_map_of_mem _ hd
      rwa [h3] at this
    rw [hcd]
    rcases List.mem_cons.mp hud with h | h
    · omega
    · exact hpair _ h

/-- C2 witness: two concrete PUTs produce versions `[1, 2]`. -/
theorem put_sequence_versions_witness :
    (putDocs { storage := [], collections := [] } "users" "u1"
        [([("name", Value.vstr "A")], 100), ([], 150)]).map
      (fun d => d.version) = List.range' 1 2 :=
  (put_sequence_versions { storage := [], collections := [] } "users" "u1"
    [("name", Value.vstr "A")] 100 [([], 150)] rfl (by norm_num)
    (by norm_num [List.chain'_cons])).1

lemma edge_getOptimalNode_mem (st : EdgeState) (clientId : String)
    (possibleNodes : List String) (h : possibleNodes ≠ []) :
    ∃ r, EdgeLocalityManager.getOptimalNode st clientId possibleNodes =
        some r ∧ r ∈ possibleNodes := by
  match possibleNodes with
  | [] => exact absurd rfl h
  | [n] => exact ⟨n, rfl, by simp⟩
  | n1 :: n2 :: rest =>
    simp only [EdgeLocalityManager.getOptimalNode]
    by_cases hsp : clientId = "client2" ∧ "node1" ∈ n1 :: n2 :: rest ∧
        "node2" ∈ n1 :: n2 :: rest ∧
        (match st.nodeData.lookup "node1" with
          | some nd => decide (400 < nd.metrics.latency)
          | none => false) = true
    · rw [if_pos hsp]
      exact ⟨"node2", rfl, hsp.2.2.1⟩
    · rw [if_neg hsp]
      by_cases hv : ((n1 :: n2 :: rest).filter
          (fun nid => (st.nodeData.lookup nid).isSome)).length = 0
      · rw [if_pos hv]
        exact ⟨n1, rfl, by simp⟩
      · rw [if_neg hv]
        have hvne : (n1 :: n2 :: rest).filter
            (fun nid => (st.nodeData.lookup nid).isSome) ≠ [] := by
          intro he
          exact hv (by rw [he]; rfl)
        obtain ⟨v, vt, hvt⟩ := List.exists_cons_of_ne_nil hvne
        have hvmem : v ∈ n1 :: n2 :: rest := by
          have : v ∈ (n1 :: n2 :: rest).filter
              (fun nid => (st.nodeData.lookup nid).isSome) := by
            rw [hvt]; exact List.mem_cons_self v vt
          exact (List.mem_filter.mp this).1
        cases hcl : st.clientLocations.lookup clientId with
        | none =>
          refine ⟨v, ?_, hvmem⟩
          dsimp only
          rw [hvt]
          rfl
        | some clientLocation =>
          dsimp only
          cases hfind : (match st.locationToNodes.lookup
                clientLocation.location with
              | some l => l
              | none => []).find? (fun nid => nid ∈ (n1 :: n2 :: rest).filter
                (fun nid => (st.nodeData.lookup nid).isSome)) with
          | none =>
            refine ⟨v, ?_, hvmem⟩
            dsimp only
            rw [hvt]
            rfl
          | some nid =>
            refine ⟨nid, rfl, ?_⟩
            have hds := List.find?_some hfind
            have hmem := of_decide_eq_true hds
            exact (List.mem_filter.mp hmem).1

lemma foldl_load_mem (st : LARState) :
    ∀ (l : List String) (acc : String × WithTop ℚ) (full : List String),
      acc.1 ∈ full → (∀ x ∈ l, x ∈ full) →
      (l.foldl (fun best nid =>
        match st.nodes.lookup nid with
        | some node =>
          if ((node.metrics.loadFactor : ℚ) : WithTop ℚ) < best.2 then
            (nid, ((node.metrics.loadFactor : ℚ) : WithTop ℚ))
          else best
        | none => best) acc).1 ∈ full := by
  intro l
  induction l with
  | nil => intro acc full hacc _; simpa using hacc
  | cons x rest ih =>
    intro acc full hacc hsub
    simp only [List.foldl_cons]
    cases hx : st.nodes.lookup x with
    | none =>
      exact ih acc full hacc (fun y hy => hsub y (List.mem_cons_of_mem _ hy))
    | some node =>
      by_cases hlt : ((node.metrics.loadFactor : ℚ) : WithTop ℚ) < acc.2
      · refine ih _ full ?_ (fun y hy => hsub y (List.mem_cons_of_mem _ hy))
        simp [hx, hlt]
        exact hsub x (List.mem_cons_self _ _)
      · refine ih _ full ?_ (fun y hy => hsub y (List.mem_cons_of_mem _ hy))
        simp [hx, hlt]
        exact hacc

lemma getNodeByLoad_mem (st : LARState) (nodeIds : List String)
    (h : nodeIds ≠ []) :
    ∃ r, LocalityAwareRouter.getNodeByLoad st nodeIds = some r ∧
      r ∈ nodeIds := by
  match nodeIds with
  | [] => exact absurd rfl h
  | [n] => exact ⟨n, rfl, by simp⟩
  | n1 :: n2 :: rest =>
    refine ⟨_, rfl, ?_⟩
    exact foldl_load_mem st (n1 :: n2 :: rest) (n1, ⊤) (n1 :: n2 :: rest)
      (List.mem_cons_self _ _) (fun x hx => hx)

lemma getNodeByMetrics_mem (st : LARState) (nodeIds : List String)
    (h : nodeIds ≠ []) :
    ∃ r, LocalityAwareRouter.getNodeByMetrics st nodeIds = some r ∧
      r ∈ nodeIds := by
  match nodeIds with
  | [] => exact absurd rfl h
  | [n] => exact ⟨n, rfl, by simp⟩
  | n1 :: n2 :: rest =>
    simp only [LocalityAwareRouter.getNodeByMetrics]
    cases hms : ((n1 :: n2 :: rest).map (fun nid =>
        (nid, match st.nodes.lookup nid with
          | none => (⊤ : WithTop ℚ)
          | some node =>
            ((node.metrics.latency / LocalityAwareRouter.LATENCY_THRESHOLD_MS +
              node.metrics.loadFactor / LocalityAwareRouter.LOAD_FACTOR_THRESHOLD +
              (1 - node.metrics.availability) : ℚ) : WithTop ℚ)))).mergeSort
        (fun a b => a.2 ≤ b.2) with
    | nil =>
      exfalso
      have := congrArg List.length hms
      simp [List.length_mergeSort] at this
    | cons p tail =>
      have hp : p ∈ (n1 :: n2 :: rest).map (fun nid =>
          (nid, match st.nodes.lookup nid with
            | none => (⊤ : WithTop ℚ)
            | some node =>
              ((node.metrics.latency / LocalityAwareRouter.LATENCY_THRESHOLD_MS +
                node.metrics.loadFactor / LocalityAwareRouter.LOAD_FACTOR_THRESHOLD +
                (1 - node.metrics.availability) : ℚ) : WithTop ℚ))) := by
        have hmem : p ∈ p :: tail := List.mem_cons_self _ _
        rw [← hms] at hmem
        exact (List.mergeSort_perm _ _).mem_iff.mp hmem
      obtain ⟨nid, hnid, hpe⟩ := List.mem_map.mp hp
      refine ⟨p.1, rfl, ?_⟩
      rw [← hpe]
      exact hnid

lemma getClosestNode_mem (st : LARState) (location : String)
    (nodeIds : List String) (h : nodeIds ≠ []) :
    ∃ r, LocalityAwareRouter.getClosestNode st location nodeIds = some r ∧
      r ∈ nodeIds := by
  match nodeIds with
  | [] => exact absurd rfl h
  | [n] => exact ⟨n, rfl, by simp⟩
  | n1 :: n2 :: rest =>
    simp only [LocalityAwareRouter.getClosestNode]
    cases hms : ((n1 :: n2 :: rest).map (fun nid =>
        (nid, match st.nodes.lookup nid with
          | none => (⊤ : WithTop ℚ)
          | some node =>
            ((LocalityAwareRouter.getLocationDistance st location
              node.location : ℚ) : WithTop ℚ)))).mergeSort
        (fun a b => a.2 ≤ b.2) with
    | nil =>
      exfalso
      have := congrArg List.length hms
      simp [List.length_mergeSort] at this
    | cons d0 stail =>
      have hsub : ∀ x ∈ ((d0 :: stail).filter
          (fun p => p.2 = d0.2)).map (fun p => p.1), x ∈ n1 :: n2 :: rest := by
        intro x hx
        obtain ⟨pair, hpair, hpx⟩ := List.mem_map.mp hx
        have h1 : pair ∈ d0 :: stail := (List.mem_filter.mp hpair).1
        rw [← hms] at h1
        have h2 := (List.mergeSort_perm _ _).mem_iff.mp h1
        obtain ⟨nid, hnid, hpe⟩ := List.mem_map.mp h2
        rw [← hpx, ← hpe]
        exact hnid
      dsimp only
      cases hcn : ((d0 :: stail).filter
          (fun p => p.2 = d0.2)).map (fun p => p.1) with
      | nil =>
        exfalso
        rw [List.map_eq_nil_iff] at hcn
        have hd0 : d0 ∈ (d0 :: stail).filter (fun p => p.2 = d0.2) :=
          List.mem_filter.mpr ⟨List.mem_cons_self _ _, by simp⟩
        rw [hcn] at hd0
        exact absurd hd0 (List.not_mem_nil d0)
      | cons c0 ctail =>
        cases ctail with
        | nil =>
          refine ⟨c0, rfl, ?_⟩
          exact hsub c0 (by rw [hcn]; exact List.mem_cons_self _ _)
        | cons c1 crest =>
          obtain ⟨r, hr, hrmem⟩ :=
            getNodeByMetrics_mem st (c0 :: c1 :: crest) (by simp)
          refine ⟨r, hr, ?_⟩
          exact hsub r (by rw [hcn]; exact hrmem)

lemma lar_getOptimalNode_mem (st : LARState) (clientId : String)
    (possibleNodes : List String) (h : possibleNodes ≠ []) :
    ∃ r, LocalityAwareRouter.getOptimalNode st clientId possibleNodes =
        some r ∧ r ∈ possibleNodes := by
  match possibleNodes with
  | [] => exact absurd rfl h
  | [n] => exact ⟨n, rfl, by simp⟩
  | n1 :: n2 :: rest =>
    simp only [LocalityAwareRouter.getOptimalNode]
    cases hcl : st.clients.lookup clientId with
    | none =>
      dsimp only
      exact getNodeByLoad_mem st (n1 :: n2 :: rest) (by simp)
    | some clientLocation =>
      dsimp only
      by_cases hn : 0 < ((n1 :: n2 :: rest).filter (fun nid =>
          match st.nodes.lookup nid with
          | some node => node.location = clientLocation.location
          | none => false)).length
      · rw [if_pos hn]
        have hne : ((n1 :: n2 :: rest).filter (fun nid =>
            match st.nodes.lookup nid with
            | some node => node.location = clientLocation.location
            | none => false)) ≠ [] := by
          intro he
          rw [he] at hn
          simp at hn
        obtain ⟨r, hr, hrmem⟩ := getNodeByMetrics_mem st _ hne
        exact ⟨r, hr, (List.mem_filter.mp hrmem).1⟩
      · rw [if_neg hn]
        exact getClosestNode_mem st clientLocation.location
          (n1 :: n2 :: rest) (by simp)

/-- C10: for every non-empty candidate list and every client (known or
unknown, with any tracked-node state), both `getOptimalNode`
implementations return an element of the candidate list. -/
theorem getOptimalNode_in_candidates :
    ∀ (es : EdgeState) (ls : LARState) (clientId : String)
      (candidates : List String), candidates ≠ [] →
      (∃ r, EdgeLocalityManager.getOptimalNode es clientId candidates =
          some r ∧ r ∈ candidates) ∧
      (∃ r, LocalityAwareRouter.getOptimalNode ls clientId candidates =
          some r ∧ r ∈ candidates) :=
  fun es ls clientId candidates h =>
    ⟨edge_getOptimalNode_mem es clientId candidates h,
     lar_getOptimalNode_mem ls clientId candidates h⟩

/-- C10 witness: on empty manager states and two candidates, both
implementations pick a node from the candidate list. -/
theorem getOptimalNode_in_candidates_witness :
    (∃ r, EdgeLocalityManager.getOptimalNode edgeState0 "c1" ["n1", "n2"] =
        some r ∧ r ∈ ["n1", "n2"]) ∧
    (∃ r, LocalityAwareRouter.getOptimalNode larState0 "c1" ["n1", "n2"] =
        some r ∧ r ∈ ["n1", "n2"]) :=
  getOptimalNode_in_candidates edgeState0 larState0 "c1" ["n1", "n2"]
    (by decide)

lemma findLoop_correct (a : List ℕ) (pos : ℕ)
    (hsort : a.Pairwise (· < ·)) :
    ∀ (n lo hi1 : ℕ), hi1 - lo = n → lo ≤ hi1 → hi1 ≤ a.length →
      (∀ i (hil : i < a.length), i < lo → a[i] < pos) →
      (∀ i (hil : i < a.length), hi1 ≤ i → pos < a[i]) →
      findLoop a pos lo hi1 =
        if List.findIdx (fun p => pos ≤ p) a < a.length
        then List.findIdx (fun p => pos ≤ p) a else 0 := by
  have hmono := List.pairwise_iff_getElem.mp hsort
  intro n
  induction n using Nat.strong_induction_on with
  | _ n ih =>
    intro lo hi1 hn hle hhi hlow hhigh
    rw [findLoop]
    by_cases hlt : lo < hi1
    · rw [dif_pos hlt]
      dsimp only
      have hmid_lt : (lo + (hi1 - 1)) / 2 < hi1 := by omega
      have hmid_ge : lo ≤ (lo + (hi1 - 1)) / 2 := by omega
      have hmid_len : (lo + (hi1 - 1)) / 2 < a.length := lt_of_lt_of_le hmid_lt hhi
      rw [List.getD_eq_getElem a 0 hmid_len]
      by_cases heq : a[(lo + (hi1 - 1)) / 2] = pos
      · rw [if_pos heq]
        have hfi : List.findIdx (fun p => pos ≤ p) a = (lo + (hi1 - 1)) / 2 := by
          have hub : List.findIdx (fun p => pos ≤ p) a ≤ (lo + (hi1 - 1)) / 2 := by
            by_contra hc
            push_neg at hc
            have := List.not_of_lt_findIdx hc
            simp [heq] at this
          have hlb : ¬ List.findIdx (fun p => pos ≤ p) a < (lo + (hi1 - 1)) / 2 := by
            intro hc
            have hflen : List.findIdx (fun p => pos ≤ p) a < a.length :=
              lt_of_lt_of_le (lt_of_lt_of_le hc (le_of_lt hmid_lt)) hhi
            have hp : pos ≤ a[List.findIdx (fun p => pos ≤ p) a] := by
              have := List.findIdx_getElem (w := hflen)
              simpa using this
            have hless : a[List.findIdx (fun p => pos ≤ p) a] < pos := by
              by_cases hlo2 : List.findIdx (fun p => pos ≤ p) a < lo
              · exact hlow _ hflen hlo2
              · push_neg at hlo2
                have := hmono (List.findIdx (fun p => pos ≤ p) a)
                  ((lo + (hi1 - 1)) / 2) hflen hmid_len hc
                omega
            omega
          omega
        rw [hfi, if_pos hmid_len]
      · rw [if_neg heq]
        by_cases hlt2 : a[(lo + (hi1 - 1)) / 2] < pos
        · rw [if_pos hlt2]
          refine ih (hi1 - ((lo + (hi1 - 1)) / 2 + 1)) (by omega)
            ((lo + (hi1 - 1)) / 2 + 1) hi1 rfl (by omega) hhi ?_ hhigh
          intro i hil hilo
          by_cases hi2 : i < lo
          · exact hlow i hil hi2
          · push_neg at hi2
            by_cases hi3 : i = (lo + (hi1 - 1)) / 2
            · subst hi3
              exact hlt2
            · have := hmono i ((lo + (hi1 - 1)) / 2) hil hmid_len (by omega)
              omega
        · rw [if_neg hlt2]
          have hgt : pos < a[(lo + (hi1 - 1)) / 2] := by omega
          refine ih ((lo + (hi1 - 1)) / 2 - lo) (by omega)
            lo ((lo + (hi1 - 1)) / 2) rfl (by omega)
            (le_of_lt hmid_len) hlow ?_
          intro i hil hi2
          by_cases hi3 : i = (lo + (hi1 - 1)) / 2
          · subst hi3
            exact hgt
          · have := hmono ((lo + (hi1 - 1)) / 2) i hmid_len hil (by omega)
            omega
    · rw [dif_neg hlt]
      have hlohi : lo = hi1 := by omega
      by_cases hlen : lo < a.length
      · have hfi : List.findIdx (fun p => pos ≤ p) a = lo := by
          have hub : List.findIdx (fun p => pos ≤ p) a ≤ lo := by
            by_contra hc
            push_neg at hc
            have := List.not_of_lt_findIdx hc
            have hph : pos < a[lo] := hhigh lo hlen (by omega)
            simp at this
            omega
          have hlb : ¬ List.findIdx (fun p => pos ≤ p) a < lo := by
            intro hc
            have hflen : List.findIdx (fun p => pos ≤ p) a < a.length :=
              lt_trans hc hlen
            have hp : pos ≤ a[List.findIdx (fun p => pos ≤ p) a] := by
              have := List.findIdx_getElem (w := hflen)
              simpa using this
            have := hlow _ hflen hc
            omega
          omega
        rw [hfi]
      · have hfi : List.findIdx (fun p => pos ≤ p) a = a.length := by
          rw [List.findIdx_eq_length]
          intro x hx
          obtain ⟨i, hil, rfl⟩ := List.mem_iff_getElem.mp hx
          simp only [decide_eq_false_iff_not, not_le]
          exact hlow i hil (by omega)
        rw [hfi]
        simp [hlen]

/-- C9: on a non-empty ring with sorted distinct positions, `getNode`
returns the node stored at the smallest ring position at least
`hash(key)`, wrapping to the lowest position when no such position
exists. -/
theorem getNode_eq_specTarget :
    ∀ (rs : RingState) (key : String),
      rs.sortedPositions.Pairwise (· < ·) →
      rs.sortedPositions ≠ [] →
      (∀ p ∈ rs.sortedPositions, (rs.ring.lookup p).isSome) →
      ∃ t, specTarget rs.sortedPositions (hashStr key) = some t ∧
        getNode rs key = rs.ring.lookup t ∧
        (rs.ring.lookup t).isSome := by
  intro rs key hsort hne hmem
  have hring : rs.ring ≠ [] := by
    obtain ⟨p0, prest, hps⟩ := List.exists_cons_of_ne_nil hne
    have h1 := hmem p0 (by rw [hps]; exact List.mem_cons_self _ _)
    intro hr
    rw [hr] at h1
    simp [List.lookup] at h1
  have hrlen : ¬ rs.ring.length = 0 := by
    intro h0
    exact hring (List.length_eq_zero.mp h0)
  have hloop := findLoop_correct rs.sortedPositions (hashStr key) hsort
    rs.sortedPositions.length 0 rs.sortedPositions.length rfl
    (Nat.zero_le _) (le_refl _)
    (fun i hil hi0 => absurd hi0 (Nat.not_lt_zero i))
    (fun i hil hge => absurd hil (by omega))
  by_cases hJ : List.findIdx (fun p => hashStr key ≤ p) rs.sortedPositions <
      rs.sortedPositions.length
  · have hgetJ : rs.sortedPositions[List.findIdx
        (fun p => hashStr key ≤ p) rs.sortedPositions] ∈ rs.sortedPositions :=
      List.getElem_mem hJ
    have hpJ : hashStr key ≤ rs.sortedPositions[List.findIdx
        (fun p => hashStr key ≤ p) rs.sortedPositions] := by
      have := List.findIdx_getElem (w := hJ)
      simpa using this
    have hmin : (rs.sortedPositions.filter
        (fun p => hashStr key ≤ p)).min? = some
          rs.sortedPositions[List.findIdx
            (fun p => hashStr key ≤ p) rs.sortedPositions] := by
      rw [List.min?_eq_some_iff']
      constructor
      · exact List.mem_filter.mpr ⟨hgetJ, by simpa using hpJ⟩
      · intro b hb
        obtain ⟨hbmem, hble⟩ := List.mem_filter.mp hb
        obtain ⟨i, hil, rfl⟩ := List.mem_iff_getElem.mp hbmem
        by_cases hiJ : i < List.findIdx
            (fun p => hashStr key ≤ p) rs.sortedPositions
        · have hfalse := List.not_of_lt_findIdx hiJ
          simp only [decide_eq_false_iff_not, not_le] at hfalse
          simp only [decide_eq_true_eq] at hble
          omega
        · push_neg at hiJ
          rcases Nat.eq_or_lt_of_le hiJ with he | hlt3
          · subst he
            exact le_refl _
          · have := (List.pairwise_iff_getElem.mp hsort) _ i hJ hil hlt3
            omega
    refine ⟨rs.sortedPositions[List.findIdx
        (fun p => hashStr key ≤ p) rs.sortedPositions], ?_, ?_, hmem _ hgetJ⟩
    · unfold specTarget
      rw [hmin]
    · unfold getNode findPositionIndex
      rw [if_neg hrlen]
      dsimp only
      rw [hloop, if_pos hJ, List.getD_eq_getElem rs.sortedPositions 0 hJ]
  · have hJlen : List.findIdx (fun p => hashStr key ≤ p) rs.sortedPositions =
        rs.sortedPositions.length := by
      have := @List.findIdx_le_length ℕ (fun p => decide (hashStr key ≤ p))
        rs.sortedPositions
      omega
    have hfilter : rs.sortedPositions.filter
        (fun p => hashStr key ≤ p) = [] := by
      rw [List.filter_eq_nil_iff]
      intro x hx
      have hh := List.findIdx_eq_length.mp hJlen x hx
      simpa using hh
    obtain ⟨p0, prest, hps⟩ := List.exists_cons_of_ne_nil hne
    have hmin0 : rs.sortedPositions.min? = some p0 := by
      rw [List.min?_eq_some_iff']
      constructor
      · rw [hps]
        exact List.mem_cons_self _ _
      · intro b hb
        rw [hps] at hb
        rcases List.mem_cons.mp hb with he | hm
        · omega
        · have hps2 := hsort
          rw [hps] at hps2
          have := (List.pairwise_cons.mp hps2).1 b hm
          omega
    refine ⟨p0, ?_, ?_, hmem p0 (by rw [hps]; exact List.mem_cons_self _ _)⟩
    · unfold specTarget
      rw [hfilter]
      simp [hmin0]
    · unfold getNode findPositionIndex
      rw [if_neg hrlen]
      dsimp only
      rw [hloop, if_neg hJ, hps]
      rfl

/-- C9 witness: on a concrete three-position ring the hypotheses hold
and the lookup matches the specified target. -/
theorem getNode_eq_specTarget_witness :
    ∃ t, specTarget ring3.sortedPositions (hashStr "k") = some t ∧
      getNode ring3 "k" = ring3.ring.lookup t ∧
      (ring3.ring.lookup t).isSome :=
  getNode_eq_specTarget ring3 "k" (by decide) (by decide) (by decide)
